import Mathlib

/-!
Verification development for the `partsdb` command-line utility
(`src/partsdb.py`).  The Python source is shallowly embedded: pure
functions become Lean functions, the interactive inventory loop becomes a
function from the list of input lines to the list of observable events
(prompts, prints, file saves) plus an outcome, and the file system is a
map from file names to file contents.  Machine-level aspects that the
claims do not touch (network transport, bytes-vs-str) are modelled by
oracles or by `List Char` contents.
-/

namespace PartsDb

/-! ### Characters used literally in the embedded strings

Brace and quote characters are introduced through `Char.ofNat` so that the
rendered JSON text can be built explicitly. -/

def lbrace : Char := Char.ofNat 123

def rbrace : Char := Char.ofNat 125

def qchar : Char := Char.ofNat 34

def bslash : Char := '\\'

/-! ### `sanitize_filename` (src/partsdb.py lines 7-8) -/

/-- One character of Python `str.isalnum`.  CPython classifies characters by
Unicode properties; this model covers the ASCII range exactly and, of the
non-ASCII range, the Latin-1 block 0xC0-0xFF, where every code point is a
letter except the multiplication sign 0xD7 and the division sign 0xF7.
Code points outside these ranges are treated as non-alphanumeric; no input
used by the claims lies outside the modelled ranges. -/
def pyIsAlnum (c : Char) : Bool :=
  (48 ≤ c.toNat && c.toNat ≤ 57) ||
  (65 ≤ c.toNat && c.toNat ≤ 90) ||
  (97 ≤ c.toNat && c.toNat ≤ 122) ||
  (192 ≤ c.toNat && c.toNat ≤ 255 && c.toNat ≠ 215 && c.toNat ≠ 247)

/-- The punctuation characters kept by `sanitize_filename` (`"-_.() "`). -/
def keptPunct : List Char := ['-', '_', '.', '(', ')', ' ']

/-- Predicate for the characters `sanitize_filename` keeps:
`c.isalnum() or c in "-_.() "`. -/
def keepChar (c : Char) : Bool := pyIsAlnum c || keptPunct.contains c

/-- Embeds `sanitize_filename` (line 7-8): keep exactly the characters that
are alphanumeric or in `"-_.() "`, in order. -/
def sanitize_filename (s : String) : String :=
  String.mk (s.data.filter keepChar)

/-! ### The `Part` record (src/partsdb.py lines 19-47) -/

/-- The normalized component record.  Optional string fields are `none`
when the Python attribute is `None`.  `count` is `Option Int`: the Python
attribute holds an `int` (`some`) or `None` (`none`, reachable through the
count-prompt quit path). -/
structure Part where
  partNum : String
  category : String
  manufacturer : String
  description : Option String
  imageUrl : Option String
  datasheetUrl : Option String
  productUrl : Option String
  count : Option Int
deriving DecidableEq, Repr

/-- Embeds `Part.__init__` (lines 20-31): the defaults of a freshly
constructed record. -/
def Part.init (partNum : String) : Part :=
  { partNum := partNum
    category := "uncategorized"
    manufacturer := "unknown"
    description := none
    imageUrl := none
    datasheetUrl := none
    productUrl := none
    count := some 0 }

/-- Embeds `Part.default_filename` (lines 33-34). -/
def Part.default_filename (p : Part) : String :=
  ".database/" ++ sanitize_filename p.partNum ++ ".json"

/-- Python `str(None)` / `str(s)` as used by `format` with two placeholders for the
description field. -/
def pyStrOpt : Option String → String
  | none => "None"
  | some s => s

/-- Right-align a natural number in width 2 (Python right-aligned width-2 format). -/
def rightAlign2 (i : Nat) : String :=
  let s := toString i
  if s.length < 2 then " " ++ s else s

/-- Embeds `Part.to_string` (lines 42-47). -/
def Part.to_string (p : Part) (index : Option Nat) : String :=
  (match index with
   | some i => "[ " ++ rightAlign2 i ++ " ] "
   | none => "") ++ p.partNum ++ ": " ++ pyStrOpt p.description

/-! ### Truthiness and the Mouser parser (src/partsdb.py lines 95-113) -/

/-- Python truthiness of a JSON field that is a string or `null`:
`None` and the empty string are falsy, every other string is truthy. -/
def truthy : Option String → Bool
  | none => false
  | some s => s != ""

/-- Python `v or d` where `v` is a string-or-null JSON field and the
default `d` is a plain string. -/
def pyOrStr (v : Option String) (d : String) : String :=
  match v with
  | some s => if s = "" then d else s
  | none => d

/-- Python `v or d` where `v` is a string-or-null JSON field and the
default `d` is an optional string. -/
def pyOrOpt (v : Option String) (d : Option String) : Option String :=
  match v with
  | some s => if s = "" then d else some s
  | none => d

/-- One entry of `SearchResults.Parts` in the Mouser response.  The API
fields used by the parser are strings or `null`; `ManufacturerPartNumber`
is modelled as a string, matching the shape required by the spec. -/
structure Entry where
  ManufacturerPartNumber : String
  Category : Option String
  Manufacturer : Option String
  Description : Option String
  ImagePath : Option String
  DataSheetUrl : Option String
  ProductDetailUrl : Option String
deriving DecidableEq, Repr

/-- The raw decoded response shape `{"SearchResults": {"Parts": [...]}}`. -/
structure SearchResults where
  Parts : List Entry
deriving DecidableEq, Repr

structure RawResponse where
  SearchResults : SearchResults
deriving DecidableEq, Repr

/-- Embeds the body of the `for` loop of `MouserPartParser.parse`
(lines 103-112).  The assignments are performed in source order; in
particular the `ImagePath` fallback reads `part.datasheetUrl` *before*
the `DataSheetUrl` assignment, exactly as in line 108. -/
def parseEntry (jpart : Entry) : Part :=
  let part := Part.init jpart.ManufacturerPartNumber
  let part := { part with category := pyOrStr jpart.Category part.category }
  let part := { part with manufacturer := pyOrStr jpart.Manufacturer part.manufacturer }
  let part := { part with description := pyOrOpt jpart.Description part.description }
  let part := { part with imageUrl := pyOrOpt jpart.ImagePath part.datasheetUrl }
  let part := { part with datasheetUrl := pyOrOpt jpart.DataSheetUrl part.datasheetUrl }
  let part := { part with productUrl := pyOrOpt jpart.ProductDetailUrl part.productUrl }
  part

/-- Embeds `MouserPartParser.parse` (lines 99-113): one `Part` per entry of
`SearchResults.Parts`, in source order. -/
def MouserPartParser.parse (obj : RawResponse) : List Part :=
  obj.SearchResults.Parts.map parseEntry

/-! ### Python `int(str)` (used by the inventory loop) -/

/-- ASCII digit test (mirrors the digits accepted by `int()` for the inputs
exercised here). -/
def isDig (c : Char) : Bool := 48 ≤ c.toNat && c.toNat ≤ 57

/-- Value of an all-digit character list, most significant first. -/
def digitsVal (l : List Char) : Nat :=
  l.foldl (fun acc c => acc * 10 + (c.toNat - 48)) 0

/-- Embeds CPython `int(s)` on the inputs the flows can see: an optional
sign followed by ASCII digits.  Whitespace-padded, underscore-grouped and
non-ASCII digit forms are outside the model; none occur in the claims. -/
def pyInt (s : String) : Option Int :=
  match s.data with
  | [] => none
  | '-' :: rest =>
      if rest ≠ [] ∧ rest.all isDig then some (-(digitsVal rest : Int)) else none
  | '+' :: rest =>
      if rest ≠ [] ∧ rest.all isDig then some ((digitsVal rest : Int)) else none
  | l =>
      if l.all isDig then some ((digitsVal l : Int)) else none

/-! ### JSON values written by `Part.save`

`json.dumps(self.__dict__, indent=4)` serializes a flat dictionary whose
values are strings, `None` or `int`.  `JVal` is exactly that fragment. -/

inductive JVal where
  | null
  | str (s : String)
  | int (n : Int)
deriving DecidableEq, Repr

/-- Decimal digit character (`0`-`9`) for `d < 10`. -/
def digCh (d : Nat) : Char := Char.ofNat (48 + d)

/-- Lowercase hexadecimal digit character for `d < 16` (CPython emits
lowercase hex in `\uXXXX` escapes). -/
def hexCh (d : Nat) : Char :=
  if d < 10 then Char.ofNat (48 + d) else Char.ofNat (87 + d)

/-- Four-digit lowercase hex rendering of `n < 0x10000`. -/
def toHex4 (n : Nat) : List Char :=
  [hexCh (n / 4096 % 16), hexCh (n / 256 % 16), hexCh (n / 16 % 16), hexCh (n % 16)]

/-- CPython `json.dumps` escaping of one character (default
`ensure_ascii=True`): the two-character escapes for quote, backslash and
the common control characters, `\uXXXX` for every other character outside
`0x20`-`0x7E`, with a surrogate pair for code points above `0xFFFF`. -/
def escChar (c : Char) : List Char :=
  if c = qchar then [bslash, qchar]
  else if c = bslash then [bslash, bslash]
  else if c = '\n' then [bslash, 'n']
  else if c = '\r' then [bslash, 'r']
  else if c = '\t' then [bslash, 't']
  else if c.toNat = 8 then [bslash, 'b']
  else if c.toNat = 12 then [bslash, 'f']
  else if c.toNat < 32 ∨ 126 < c.toNat then
    if c.toNat < 65536 then bslash :: 'u' :: toHex4 c.toNat
    else
      (bslash :: 'u' :: toHex4 (55296 + (c.toNat - 65536) / 1024)) ++
      (bslash :: 'u' :: toHex4 (56320 + (c.toNat - 65536) % 1024))
  else [c]

/-- Escape a whole character list. -/
def escList : List Char → List Char
  | [] => []
  | c :: rest => escChar c ++ escList rest

/-- The JSON string literal for `s`: quote, escaped body, quote. -/
def escString (s : String) : List Char :=
  qchar :: (escList s.data ++ [qchar])

/-- Decimal digits of `n`, most significant first. -/
def natToChars (n : Nat) : List Char :=
  if n < 10 then [digCh n] else natToChars (n / 10) ++ [digCh (n % 10)]
decreasing_by exact Nat.div_lt_self (by omega) (by omega)

/-- Decimal rendering of an integer (Python `repr` of an `int`). -/
def intToChars (n : Int) : List Char :=
  if n < 0 then '-' :: natToChars (-n).toNat else natToChars n.toNat

/-- Rendering of one scalar JSON value. -/
def renderJVal : JVal → List Char
  | .null => ['n', 'u', 'l', 'l']
  | .str s => escString s
  | .int n => intToChars n

def spaces4 : List Char := [' ', ' ', ' ', ' ']

/-- Rendering of one `"key": value` pair. -/
def renderMember (k : String) (v : JVal) : List Char :=
  escString k ++ (':' :: ' ' :: renderJVal v)

/-- Member lines of `json.dumps(d, indent=4)`: each member indented by four
spaces, separated by `",\n"`. -/
def renderMembers : List (String × JVal) → List Char
  | [] => []
  | [(k, v)] => spaces4 ++ renderMember k v
  | (k, v) :: rest => spaces4 ++ renderMember k v ++ (',' :: '\n' :: renderMembers rest)

/-- Full rendering of `json.dumps(d, indent=4)` for a flat dictionary. -/
def renderObj (members : List (String × JVal)) : List Char :=
  match members with
  | [] => [lbrace, rbrace]
  | m :: rest => lbrace :: '\n' :: (renderMembers (m :: rest) ++ ('\n' :: [rbrace]))

/-- JSON value of an optional-string attribute. -/
def jopt : Option String → JVal
  | none => .null
  | some s => .str s

/-- JSON value of the `count` attribute. -/
def jcount : Option Int → JVal
  | none => .null
  | some n => .int n

/-- The dictionary `self.__dict__` of a `Part`, in attribute declaration
order (lines 20-31). -/
def partDict (p : Part) : List (String × JVal) :=
  [("partNum", .str p.partNum),
   ("category", .str p.category),
   ("manufacturer", .str p.manufacturer),
   ("description", jopt p.description),
   ("imageUrl", jopt p.imageUrl),
   ("datasheetUrl", jopt p.datasheetUrl),
   ("productUrl", jopt p.productUrl),
   ("count", jcount p.count)]

/-- The exact file contents written by `Part.save`
(`json.dumps(self.__dict__, indent=4)`). -/
def Part.saveChars (p : Part) : List Char :=
  renderObj (partDict p)

/-- The file system: a map from file names to contents. -/
def FS : Type := String → Option (List Char)

/-- Embeds `Part.save` (lines 36-40): choose the default filename when none
is given, then write (truncate-and-replace) the serialized dictionary. -/
def Part.save (p : Part) (filename : Option String) (fs : FS) : FS :=
  let fname := filename.getD p.default_filename
  fun n => if n = fname then some p.saveChars else fs n

/-! ### `json.loads` on the fragment written by `Part.save`

The reader side of the round-trip claim.  It follows the JSON grammar as
implemented by CPython `json.loads` restricted to a top-level object whose
values are strings, `null` or integers: arbitrary interstitial whitespace,
full string-escape handling including `\uXXXX` and surrogate pairs.
Deviations, all unreachable from rendered output: lone surrogates (not
representable as Lean `Char`) are rejected, numbers with leading zeros are
accepted, and floats are not parsed. -/

def isWsChar (c : Char) : Bool := c = ' ' || c = '\n' || c = '\t' || c = '\r'

def skipWs : List Char → List Char
  | [] => []
  | c :: rest => if isWsChar c then skipWs rest else c :: rest

/-- Hexadecimal digit value (both cases accepted, as by `json.loads`). -/
def hexVal : Char → Option Nat
  | c =>
    if 48 ≤ c.toNat ∧ c.toNat ≤ 57 then some (c.toNat - 48)
    else if 97 ≤ c.toNat ∧ c.toNat ≤ 102 then some (c.toNat - 87)
    else if 65 ≤ c.toNat ∧ c.toNat ≤ 70 then some (c.toNat - 55)
    else none

def hex4 (a b c d : Char) : Option Nat :=
  match hexVal a, hexVal b, hexVal c, hexVal d with
  | some x, some y, some z, some w => some (x * 4096 + y * 256 + z * 16 + w)
  | _, _, _, _ => none

/-- The single-character escapes of the JSON grammar. -/
def simpleEsc (c : Char) : Option Char :=
  if c = qchar then some qchar
  else if c = bslash then some bslash
  else if c = '/' then some '/'
  else if c = 'b' then some (Char.ofNat 8)
  else if c = 'f' then some (Char.ofNat 12)
  else if c = 'n' then some '\n'
  else if c = 'r' then some '\r'
  else if c = 't' then some '\t'
  else none

/-- Decode one escape sequence after the backslash: a simple escape or a
`\uXXXX` escape with surrogate-pair combination, as `json.loads` does.
Returns the decoded character and the remaining input. -/
def parseEsc : List Char → Option (Char × List Char)
  | [] => none
  | e :: rest2 =>
    if e = 'u' then
      match rest2 with
      | h1 :: h2 :: h3 :: h4 :: rest3 =>
        match hex4 h1 h2 h3 h4 with
        | none => none
        | some n =>
          if 55296 ≤ n ∧ n ≤ 56319 then
            match rest3 with
            | b2 :: u2 :: k1 :: k2 :: k3 :: k4 :: rest4 =>
              if b2 = bslash ∧ u2 = 'u' then
                match hex4 k1 k2 k3 k4 with
                | some m =>
                  if 56320 ≤ m ∧ m ≤ 57343 then
                    some (Char.ofNat (65536 + (n - 55296) * 1024 + (m - 56320)), rest4)
                  else none
                | none => none
              else none
            | _ => none
          else if 56320 ≤ n ∧ n ≤ 57343 then none
          else some (Char.ofNat n, rest3)
      | _ => none
    else
      match simpleEsc e with
      | some ec => some (ec, rest2)
      | none => none

/-- Parse a string body after the opening quote, up to and including the
closing quote; returns the decoded characters and the remaining input.
`fuel` bounds the number of decoded characters; each decoded character
consumes at least one input character, so `input length + 1` suffices. -/
def parseStringBody : Nat → List Char → Option (List Char × List Char)
  | 0, _ => none
  | _ + 1, [] => none
  | fuel + 1, c :: rest =>
    if c = qchar then some ([], rest)
    else if c = bslash then
      match parseEsc rest with
      | some (ec, rest2) => (parseStringBody fuel rest2).map (fun p => (ec :: p.1, p.2))
      | none => none
    else if c.toNat < 32 then none
    else (parseStringBody fuel rest).map (fun p => (c :: p.1, p.2))

/-- Consume decimal digits, accumulating their value. -/
def parseDigits : List Char → Nat → Nat × List Char
  | [], acc => (acc, [])
  | c :: rest, acc =>
    if isDig c then parseDigits rest (acc * 10 + (c.toNat - 48)) else (acc, c :: rest)

/-- Parse one scalar JSON value (string, `null`, or integer). -/
def parseJVal : List Char → Option (JVal × List Char)
  | [] => none
  | c :: rest =>
    if c = qchar then
      (parseStringBody (rest.length + 1) rest).map (fun p => (JVal.str (String.mk p.1), p.2))
    else if c = 'n' then
      match rest with
      | 'u' :: 'l' :: 'l' :: r => some (.null, r)
      | _ => none
    else if c = '-' then
      match rest with
      | [] => none
      | d :: r2 =>
        if isDig d then
          let pr := parseDigits r2 (d.toNat - 48)
          some (.int (-(pr.1 : Int)), pr.2)
        else none
    else if isDig c then
      let pr := parseDigits rest (c.toNat - 48)
      some (.int ((pr.1 : Int)), pr.2)
    else none

/-- Parse `"key": value` (leading whitespace allowed before the key and
around the colon). -/
def parseMember (l : List Char) : Option ((String × JVal) × List Char) :=
  match skipWs l with
  | [] => none
  | c :: r =>
    if c = qchar then
      match parseStringBody (r.length + 1) r with
      | none => none
      | some (k, r2) =>
        match skipWs r2 with
        | [] => none
        | c2 :: r3 =>
          if c2 = ':' then
            match parseJVal (skipWs r3) with
            | none => none
            | some (v, r4) => some ((String.mk k, v), r4)
          else none
    else none

/-- Parse the members of a non-empty object, including the closing brace.
`fuel` bounds the number of members; each member consumes at least one
character, so `input length + 1` is always sufficient. -/
def parseMembers : Nat → List Char → Option (List (String × JVal) × List Char)
  | 0, _ => none
  | fuel + 1, l =>
    match parseMember l with
    | none => none
    | some (kv, r) =>
      match skipWs r with
      | [] => none
      | c :: r2 =>
        if c = ',' then (parseMembers fuel r2).map (fun p => (kv :: p.1, p.2))
        else if c = rbrace then some ([kv], r2)
        else none

/-- Whether a character list does not start with a decimal digit (used to
state where number parsing stops). -/
def noDigitHead : List Char → Bool
  | [] => true
  | c :: _ => !(isDig c)

/-- Embeds `json.loads` on a flat-object document: parse the object and
require only whitespace to remain. -/
def loads (l : List Char) : Option (List (String × JVal)) :=
  match skipWs l with
  | [] => none
  | c :: r =>
    if c = lbrace then
      match skipWs r with
      | [] => none
      | c2 :: r2 =>
        if c2 = rbrace then (if skipWs r2 = [] then some [] else none)
        else
          match parseMembers (r.length + 1) r with
          | none => none
          | some (ms, rest) => if skipWs rest = [] then some ms else none
    else none

/-! ### The Mouser search request (src/partsdb.py lines 66-80) -/

structure HttpRequest where
  method : String
  url : String
  headers : List (String × String)
  body : List Char
deriving DecidableEq

/-- The encoded body
built by `json.dumps` from the keyword-request dictionary
(compact default separators, `ensure_ascii` escaping). -/
def searchBody (query : String) : List Char :=
  [lbrace] ++ escString "SearchByKeywordRequest" ++ [':', ' '] ++
  [lbrace] ++ escString "keyword" ++ [':', ' '] ++ escString query ++
  [',', ' '] ++ escString "records" ++ [':', ' '] ++ natToChars 25 ++
  [',', ' '] ++ escString "startingRecord" ++ [':', ' '] ++ natToChars 0 ++
  [rbrace, rbrace]

/-- Embeds the request construction of `MouserPartSearch.search`
(lines 66-79).  The `exactFlag` parameter is accepted, as in the source,
and — exactly as in the source — never read. -/
def MouserPartSearch.request (apiKey query : String) (exactFlag : Bool) : HttpRequest :=
  { method := "POST"
    url := "https://api.mouser.com/api/v1/search/keyword?apiKey=" ++ apiKey
    headers := [("Content-Type", "application/json")]
    body := searchBody query }

/-! ### Observable events of the interactive flows

`prompt s` is the prompt string passed to `input()`, `print s` is one
`print()` call, `save p f` is one `part.save()` writing `p` at path `f`.
The network search plus parse (`searcher.search` then `parser.parse`) is
supplied as an oracle `String → List Part`, since the claims about the
flows are conditional on the parsed result list. -/

inductive Ev where
  | prompt (s : String)
  | print (s : String)
  | save (p : Part) (filename : String)
deriving DecidableEq, Repr

/-- Whether an event is a file save. -/
def isSave : Ev → Bool
  | .save _ _ => true
  | _ => false

/-- The saves of an event trace, in order. -/
def savesOf (evs : List Ev) : List Ev := evs.filter isSave

/-- The 1-indexed listing `print(p.to_string(i))` of lines 121-124 and
151-154. -/
def indexedPrints : List Part → Nat → List Ev
  | [], _ => []
  | p :: rest, i => Ev.print (p.to_string (some i)) :: indexedPrints rest (i + 1)

def refuseMsg : String :=
  "Refusing to insert more than one part, make your query more selective!"

def nothingMsg : String := "No parts were found, nothing to insert!"

/-- A placeholder part for the (unreachable) out-of-range list index; the
theorems only ever index within bounds. -/
def dummyPart : Part := Part.init ""

/-- Embeds the `lookup` flow (lines 115-131) given the parsed result list
`parts` of the query: print every part 1-indexed, then apply the insert
policy. -/
def lookup (parts : List Part) (insertFlag : Bool) : List Ev :=
  indexedPrints parts 1 ++
  (if insertFlag then
    if parts.length > 1 then [Ev.print refuseMsg]
    else if parts.length = 0 then [Ev.print nothingMsg]
    else [Ev.save (parts.getD 0 dummyPart) ((parts.getD 0 dummyPart).default_filename)]
  else [])

/-! ### The inventory flow (src/partsdb.py lines 133-183) -/

def partPrompt : String := "Part ID (or \u0027q\u0027 to exit): "

def selPrompt : String := "Select part to add (or \u0027q\u0027 to exit): "

def countPrompt : String := "Count (or \u0027q\u0027 to exit): "

def notFoundMsg : String := "Found no parts for this keyword ..."

def foundMultipleMsg : String := "Found multiple parts for this keyword:"

/-- The `ValueError` message printed by the disambiguation loop
(format of the bound exception `e`); `repr`-escaping of exotic inputs is
outside the model. -/
def selErrMsg (which : String) : String :=
  "Selection error: invalid literal for int() with base 10: \u0027" ++ which ++ "\u0027"

/-- The success message of lines 183. -/
def writtenMsg (p : Part) : String :=
  "Written part to \u0027" ++ p.default_filename ++ "\u0027 ...\n\n"

/-- The banner of line 169. -/
def selectedMsg (p : Part) : String :=
  "\nSelected part:\n" ++ p.to_string none ++ "\n"

/-- Result of one of the two inner prompt loops. -/
inductive LoopRes where
  | crash (msg : String)
  | quit
  | val (n : Int)
deriving DecidableEq, Repr

/-- Embeds the disambiguation loop (lines 155-164).  `sel` is the current
value of the Python variable `sel`; the loop runs while
`sel < 1 or sel > len(parts)`.  The letter `q` breaks with `sel = None` (`.quit`);
a non-numeric line prints the `ValueError` (bound as `e`) and repeats;
end of input raises `EOFError` outside any handler (`.crash`). -/
def selLoop (parts : List Part) (sel : Int) (lines : List String) :
    List Ev × LoopRes × List String :=
  if sel < 1 ∨ sel > (parts.length : Int) then
    match lines with
    | [] => ([Ev.prompt selPrompt], .crash "EOFError", [])
    | which :: rest =>
      if which = "q" then ([Ev.prompt selPrompt], .quit, rest)
      else
        match pyInt which with
        | some n =>
          let r := selLoop parts n rest
          (Ev.prompt selPrompt :: r.1, r.2.1, r.2.2)
        | none =>
          let r := selLoop parts sel rest
          (Ev.prompt selPrompt :: Ev.print (selErrMsg which) :: r.1, r.2.1, r.2.2)
  else ([], .val sel, lines)

/-- Embeds the count loop (lines 170-179).  The loop runs while
`count < 1`; the letter `q` breaks with `count = None` (`.quit`).  Any exception in
the `try` block — a `ValueError` from `int(count)` or an `EOFError` from
`input()` — reaches the bare `except:` handler, whose
`format` call on `e` raises `NameError` because `e` is
unbound there, terminating the whole flow (`.crash "NameError"`). -/
def countLoop (lines : List String) (count : Int) :
    List Ev × LoopRes × List String :=
  if count < 1 then
    match lines with
    | [] => ([Ev.prompt countPrompt], .crash "NameError", [])
    | c :: rest =>
      if c = "q" then ([Ev.prompt countPrompt], .quit, rest)
      else
        match pyInt c with
        | some n =>
          let r := countLoop rest n
          (Ev.prompt countPrompt :: r.1, r.2.1, r.2.2)
        | none => ([Ev.prompt countPrompt], .crash "NameError", rest)
  else ([], .val count, lines)

/-- Embeds the Selected state (lines 169-183): print the banner, run the
count loop, then — whatever non-crash way the loop ended, including the
quit break which leaves `count = None` — set `part.count` and save.
Returns the events and either a crash message or the remaining input. -/
def selectedPhase (part : Part) (lines : List String) :
    List Ev × Except String (List String) :=
  let c := countLoop lines 0
  match c.2.1 with
  | .crash m => (Ev.print (selectedMsg part) :: c.1, .error m)
  | .quit =>
    let p := { part with count := none }
    (Ev.print (selectedMsg part) :: c.1 ++
      [Ev.save p p.default_filename, Ev.print (writtenMsg p)], .ok c.2.2)
  | .val n =>
    let p := { part with count := some n }
    (Ev.print (selectedMsg part) :: c.1 ++
      [Ev.save p p.default_filename, Ev.print (writtenMsg p)], .ok c.2.2)

/-- Final outcome of an inventory session on a finite input script. -/
inductive Outcome where
  | exited
  | crashed (msg : String)
  | fuelOut
deriving DecidableEq, Repr

/-- Embeds the `while True` loop of `inventory` (lines 136-183), driven by
the finite list of input lines.  `fuel` bounds the number of outer
iterations; every iteration consumes at least one line, so
`lines.length + 1` is always sufficient (see `invLoop_no_fuelOut`). -/
def invLoop (search : String → List Part) : Nat → List String → List Ev × Outcome
  | 0, _ => ([], .fuelOut)
  | _ + 1, [] => ([Ev.prompt partPrompt], .crashed "EOFError")
  | fuel + 1, partid :: rest =>
    if partid = "q" then ([Ev.prompt partPrompt], .exited)
    else
      match search partid with
      | [] =>
        let r := invLoop search fuel rest
        (Ev.prompt partPrompt :: Ev.print notFoundMsg :: r.1, r.2)
      | [part] =>
        let sp := selectedPhase part rest
        match sp.2 with
        | .error m => (Ev.prompt partPrompt :: sp.1, .crashed m)
        | .ok rem =>
          let r := invLoop search fuel rem
          (Ev.prompt partPrompt :: sp.1 ++ r.1, r.2)
      | p1 :: p2 :: ps =>
        let parts := p1 :: p2 :: ps
        let listing := Ev.print foundMultipleMsg :: indexedPrints parts 1
        let q := selLoop parts 0 rest
        match q.2.1 with
        | .crash m => (Ev.prompt partPrompt :: listing ++ q.1, .crashed m)
        | .quit =>
          let r := invLoop search fuel q.2.2
          (Ev.prompt partPrompt :: listing ++ q.1 ++ r.1, r.2)
        | .val s =>
          let part := parts.getD (s - 1).toNat dummyPart
          let sp := selectedPhase part q.2.2
          match sp.2 with
          | .error m => (Ev.prompt partPrompt :: listing ++ q.1 ++ sp.1, .crashed m)
          | .ok rem =>
            let r := invLoop search fuel rem
            (Ev.prompt partPrompt :: listing ++ q.1 ++ sp.1 ++ r.1, r.2)

/-- Embeds `inventory` (lines 133-183) on a finite input script. -/
def inventory (search : String → List Part) (lines : List String) :
    List Ev × Outcome :=
  invLoop search (lines.length + 1) lines

/-! ### Concrete fixtures used by witnesses and counterexamples -/

/-- The ASCII character class of the spec sentence
`[A-Za-z0-9-_.() ]` (testable property 1 of the spec). -/
def allowedSpecChar (c : Char) : Bool :=
  (48 ≤ c.toNat && c.toNat ≤ 57) ||
  (65 ≤ c.toNat && c.toNat ≤ 90) ||
  (97 ≤ c.toNat && c.toNat ≤ 122) ||
  keptPunct.contains c

def exPart : Part := Part.init "EX1"

def exPart2 : Part := { Part.init "EX2" with description := some "second" }

/-- A search-plus-parse oracle returning exactly one part for the query
`X` and nothing otherwise. -/
def oneOracle : String → List Part := fun q => if q = "X" then [exPart] else []

/-- A search-plus-parse oracle returning two parts for the query `X`. -/
def twoOracle : String → List Part := fun q => if q = "X" then [exPart, exPart2] else []

def exEntry : Entry :=
  { ManufacturerPartNumber := "MPN-1"
    Category := some "ICs"
    Manufacturer := none
    Description := some "chip"
    ImagePath := none
    DataSheetUrl := some "http://ds.example/a.pdf"
    ProductDetailUrl := some "" }

def exResponse : RawResponse := { SearchResults := { Parts := [exEntry] } }

/-! ## Helper lemmas

### Characters -/

theorem toNat_ofNat_valid {k : Nat} (h : Nat.isValidChar k) :
    (Char.ofNat k).toNat = k := by
  rw [Char.ofNat, dif_pos h]; rfl

theorem toNat_ofNat_lt {k : Nat} (h : k < 55296) : (Char.ofNat k).toNat = k :=
  toNat_ofNat_valid (Or.inl h)

theorem char_toNat_valid (c : Char) :
    c.toNat < 55296 ∨ (57343 < c.toNat ∧ c.toNat < 1114112) := c.valid

theorem char_eq_of_toNat_eq {a b : Char} (h : a.toNat = b.toNat) : a = b := by
  rw [← Char.ofNat_toNat a, ← Char.ofNat_toNat b, h]

/-! ### Whitespace skipping -/

theorem skipWs_ws {c : Char} (h : isWsChar c = true) (l : List Char) :
    skipWs (c :: l) = skipWs l := by
  simp [skipWs, h]

theorem skipWs_nonws {c : Char} (h : isWsChar c = false) (l : List Char) :
    skipWs (c :: l) = c :: l := by
  simp [skipWs, h]

theorem isWsChar_toNat {c : Char} (h : isWsChar c = true) :
    c.toNat = 32 ∨ c.toNat = 10 ∨ c.toNat = 9 ∨ c.toNat = 13 := by
  simp only [isWsChar, Bool.or_eq_true, decide_eq_true_eq] at h
  rcases h with ((h | h) | h) | h <;> subst h <;> simp

theorem isWsChar_of_isDig {c : Char} (h : isDig c = true) : isWsChar c = false := by
  cases hw : isWsChar c with
  | false => rfl
  | true =>
    exfalso
    simp only [isDig, Bool.and_eq_true, decide_eq_true_eq] at h
    rcases isWsChar_toNat hw with h2 | h2 | h2 | h2 <;> omega

/-! ### Decimal digits -/

theorem digCh_toNat {d : Nat} (h : d < 10) : (digCh d).toNat = 48 + d := by
  rw [digCh, toNat_ofNat_lt (by omega)]

theorem isDig_digCh {d : Nat} (h : d < 10) : isDig (digCh d) = true := by
  simp [isDig, digCh_toNat h]; omega

theorem natToChars_cons (n : Nat) :
    ∃ c r, natToChars n = c :: r ∧ isDig c = true ∧ r.all isDig = true := by
  induction n using Nat.strong_induction_on with
  | _ n ih =>
    rw [natToChars]
    by_cases h : n < 10
    · exact ⟨digCh n, [], by simp [h], isDig_digCh h, rfl⟩
    · obtain ⟨c, r, hcr, hc, hr⟩ := ih (n / 10) (Nat.div_lt_self (by omega) (by omega))
      refine ⟨c, r ++ [digCh (n % 10)], by simp [h, hcr], hc, ?_⟩
      simp only [List.all_append, hr, Bool.true_and, List.all_cons, List.all_nil,
        Bool.and_true]
      exact isDig_digCh (Nat.mod_lt _ (by omega))

theorem parseDigits_stop {l : List Char} (h : noDigitHead l = true) (acc : Nat) :
    parseDigits l acc = (acc, l) := by
  cases l with
  | nil => rfl
  | cons c r =>
    simp only [noDigitHead, Bool.not_eq_eq_eq_not, Bool.not_true] at h
    simp [parseDigits, h]

theorem parseDigits_natToChars (n : Nat) :
    ∀ acc rest, parseDigits (natToChars n ++ rest) acc =
      parseDigits rest (acc * 10 ^ (natToChars n).length + n) := by
  induction n using Nat.strong_induction_on with
  | _ n ih =>
    intro acc rest
    rw [natToChars]
    by_cases h : n < 10
    · simp only [if_pos h, List.cons_append, List.nil_append]
      rw [parseDigits, if_pos (isDig_digCh h)]
      rw [digCh_toNat h]
      norm_num
    · simp only [if_neg h, List.append_assoc, List.cons_append, List.nil_append]
      rw [ih (n / 10) (Nat.div_lt_self (by omega) (by omega))]
      have h10 : n % 10 < 10 := Nat.mod_lt _ (by omega)
      rw [parseDigits, if_pos (isDig_digCh h10), digCh_toNat h10]
      have hlen : (natToChars (n / 10) ++ [digCh (n % 10)]).length =
          (natToChars (n / 10)).length + 1 := by simp
      rw [hlen]
      congr 1
      have hmod := Nat.div_add_mod n 10
      ring_nf
      omega

theorem parseDigits_natToChars_zero {rest : List Char} (h : noDigitHead rest = true)
    (n : Nat) : parseDigits (natToChars n ++ rest) 0 = (n, rest) := by
  rw [parseDigits_natToChars, parseDigits_stop h]
  simp

/-! ### String-escape round trip -/

theorem hexVal_hexCh {d : Nat} (h : d < 16) : hexVal (hexCh d) = some d := by
  interval_cases d <;> decide

theorem hex4_toHex4 {n : Nat} (h : n < 65536) :
    hex4 (hexCh (n / 4096 % 16)) (hexCh (n / 256 % 16)) (hexCh (n / 16 % 16))
      (hexCh (n % 16)) = some n := by
  simp only [hex4, hexVal_hexCh (Nat.mod_lt _ (by omega) : n / 4096 % 16 < 16),
    hexVal_hexCh (Nat.mod_lt _ (by omega) : n / 256 % 16 < 16),
    hexVal_hexCh (Nat.mod_lt _ (by omega) : n / 16 % 16 < 16),
    hexVal_hexCh (Nat.mod_lt _ (by omega) : n % 16 < 16), Option.some.injEq]
  omega

theorem parseEsc_simple {e ec : Char} (hs : simpleEsc e = some ec)
    (hu : ¬(e = 'u')) (rest : List Char) :
    parseEsc (e :: rest) = some (ec, rest) := by
  simp only [parseEsc, if_neg hu, hs]

theorem parseEsc_u {h1 h2 h3 h4 : Char} {n : Nat} (hh : hex4 h1 h2 h3 h4 = some n)
    (hlo : ¬(55296 ≤ n ∧ n ≤ 56319)) (hhi : ¬(56320 ≤ n ∧ n ≤ 57343))
    (rest : List Char) :
    parseEsc ('u' :: h1 :: h2 :: h3 :: h4 :: rest) = some (Char.ofNat n, rest) := by
  simp only [parseEsc, if_pos (rfl : ('u' : Char) = 'u'), hh]
  rw [if_neg hlo, if_neg hhi]
  simp

theorem parseEsc_pair {h1 h2 h3 h4 k1 k2 k3 k4 : Char} {n m : Nat}
    (hh : hex4 h1 h2 h3 h4 = some n) (hk : hex4 k1 k2 k3 k4 = some m)
    (hn : 55296 ≤ n ∧ n ≤ 56319) (hm : 56320 ≤ m ∧ m ≤ 57343) (rest : List Char) :
    parseEsc ('u' :: h1 :: h2 :: h3 :: h4 :: bslash :: 'u' :: k1 :: k2 :: k3 :: k4 :: rest) =
      some (Char.ofNat (65536 + (n - 55296) * 1024 + (m - 56320)), rest) := by
  simp only [parseEsc, if_pos (rfl : ('u' : Char) = 'u'), hh]
  rw [if_pos hn]
  simp only [hk, if_pos hm]
  simp

theorem psb_close (f : Nat) (rest : List Char) :
    parseStringBody (f + 1) (qchar :: rest) = some ([], rest) := by
  simp [parseStringBody]

theorem psb_esc {rest rest2 : List Char} {ec : Char}
    (h : parseEsc rest = some (ec, rest2)) (f : Nat) :
    parseStringBody (f + 1) (bslash :: rest) =
      (parseStringBody f rest2).map (fun p => (ec :: p.1, p.2)) := by
  simp only [parseStringBody, h]
  rw [if_neg (by decide : ¬(bslash = qchar))]
  simp

theorem psb_plain {c : Char} (hq : ¬(c = qchar)) (hb : ¬(c = bslash))
    (hc : ¬(c.toNat < 32)) (f : Nat) (rest : List Char) :
    parseStringBody (f + 1) (c :: rest) =
      (parseStringBody f rest).map (fun p => (c :: p.1, p.2)) := by
  simp only [parseStringBody]
  rw [if_neg hq, if_neg hb, if_neg hc]

theorem parse_escChar (c : Char) (rest : List Char) (f : Nat) :
    parseStringBody (f + 1) (escChar c ++ rest) =
      (parseStringBody f rest).map (fun p => (c :: p.1, p.2)) := by
  have hv := char_toNat_valid c
  rw [escChar]
  split_ifs with h1 h2 h3 h4 h5 h6 h7 h8 h9
  · subst h1
    simp only [List.cons_append, List.nil_append]
    exact psb_esc (parseEsc_simple (by decide) (by decide) rest) f
  · subst h2
    simp only [List.cons_append, List.nil_append]
    exact psb_esc (parseEsc_simple (by decide) (by decide) rest) f
  · subst h3
    simp only [List.cons_append, List.nil_append]
    exact psb_esc (parseEsc_simple (by decide) (by decide) rest) f
  · subst h4
    simp only [List.cons_append, List.nil_append]
    exact psb_esc (parseEsc_simple (by decide) (by decide) rest) f
  · subst h5
    simp only [List.cons_append, List.nil_append]
    exact psb_esc (parseEsc_simple (by decide) (by decide) rest) f
  · have hc : c = Char.ofNat 8 := char_eq_of_toNat_eq (by rw [h6]; decide)
    subst hc
    simp only [List.cons_append, List.nil_append]
    exact psb_esc (parseEsc_simple (by decide) (by decide) rest) f
  · have hc : c = Char.ofNat 12 := char_eq_of_toNat_eq (by rw [h7]; decide)
    subst hc
    simp only [List.cons_append, List.nil_append]
    exact psb_esc (parseEsc_simple (by decide) (by decide) rest) f
  · -- `\uXXXX` escape of a BMP character
    simp only [toHex4, List.cons_append, List.nil_append]
    rw [psb_esc (parseEsc_u (hex4_toHex4 h9) (by omega) (by omega) rest) f,
      Char.ofNat_toNat]
  · -- surrogate-pair escape of a character above the BMP
    have hge : 65536 ≤ c.toNat := by omega
    have hlt : c.toNat < 1114112 := by omega
    simp only [toHex4, List.cons_append, List.nil_append, List.append_assoc]
    rw [psb_esc (parseEsc_pair (hex4_toHex4 (by omega)) (hex4_toHex4 (by omega))
      (by constructor <;> omega) (by constructor <;> omega) rest) f]
    have harg : 65536 + ((55296 + (c.toNat - 65536) / 1024) - 55296) * 1024 +
        ((56320 + (c.toNat - 65536) % 1024) - 56320) = c.toNat := by omega
    rw [harg, Char.ofNat_toNat]
  · -- plain printable character
    simp only [List.cons_append, List.nil_append]
    exact psb_plain h1 h2 (by omega) f rest

theorem parse_escList (l : List Char) :
    ∀ (f : Nat), l.length ≤ f → ∀ rest : List Char,
      parseStringBody (f + 1) (escList l ++ (qchar :: rest)) = some (l, rest) := by
  induction l with
  | nil =>
    intro f _ rest
    simpa [escList] using psb_close f rest
  | cons c t ih =>
    intro f hf rest
    obtain ⟨f2, rfl⟩ : ∃ f2, f = f2 + 1 := ⟨f - 1, by simp at hf; omega⟩
    rw [escList, List.append_assoc, parse_escChar, ih f2 (by simp at hf; omega) rest]
    rfl

theorem escChar_length_pos (c : Char) : 1 ≤ (escChar c).length := by
  rw [escChar]
  split_ifs <;> simp [toHex4]

theorem length_le_escList (l : List Char) : l.length ≤ (escList l).length := by
  induction l with
  | nil => simp [escList]
  | cons c t ih =>
    rw [escList]
    simp only [List.length_append, List.length_cons]
    have := escChar_length_pos c
    omega

/-! ### Scalar values round trip -/

theorem string_mk_data (s : String) : String.mk s.data = s := rfl

theorem isDig_toNat {c : Char} (h : isDig c = true) :
    48 ≤ c.toNat ∧ c.toNat ≤ 57 := by
  simpa [isDig] using h

theorem isDig_ne {c d : Char} (h : isDig c = true) (hd : isDig d = false) :
    ¬(c = d) := by
  intro he
  subst he
  rw [h] at hd
  exact Bool.noConfusion hd

theorem parse_escString (s : String) (rest : List Char) :
    parseJVal (escString s ++ rest) = some (.str s, rest) := by
  have hshape : escString s ++ rest =
      qchar :: (escList s.data ++ (qchar :: rest)) := by
    simp [escString, List.cons_append, List.append_assoc]
  rw [hshape]
  simp only [parseJVal, if_pos (rfl : qchar = qchar)]
  have hlen : s.data.length ≤ (escList s.data ++ (qchar :: rest)).length := by
    rw [List.length_append, List.length_cons]
    have := length_le_escList s.data
    omega
  rw [parse_escList s.data (escList s.data ++ (qchar :: rest)).length hlen rest]
  simp [string_mk_data]

theorem parseJVal_render (v : JVal) {rest : List Char}
    (h : noDigitHead rest = true) :
    parseJVal (renderJVal v ++ rest) = some (v, rest) := by
  cases v with
  | null =>
    simp only [renderJVal, List.cons_append, List.nil_append]
    simp only [parseJVal]
    rw [if_neg (by decide : ¬(('n' : Char) = qchar))]
    simp
  | str s => exact parse_escString s rest
  | int n =>
    rcases le_or_lt 0 n with hn | hn
    · have hi : intToChars n = natToChars n.toNat := by
        rw [intToChars, if_neg (by omega)]
      rw [renderJVal, hi]
      obtain ⟨c, r, hcr, hc, _⟩ := natToChars_cons n.toNat
      have hkey : parseDigits (r ++ rest) (c.toNat - 48) = (n.toNat, rest) := by
        have h0 : parseDigits (natToChars n.toNat ++ rest) 0 = (n.toNat, rest) :=
          parseDigits_natToChars_zero h n.toNat
        rw [hcr] at h0
        rw [List.cons_append, parseDigits, if_pos hc] at h0
        simpa using h0
      rw [hcr]
      simp only [List.cons_append]
      simp only [parseJVal]
      rw [if_neg (isDig_ne hc (by decide)), if_neg (isDig_ne hc (by decide)),
        if_neg (isDig_ne hc (by decide)), if_pos hc, hkey]
      simp [Int.toNat_of_nonneg hn]
    · have hi : intToChars n = '-' :: natToChars (-n).toNat := by
        rw [intToChars, if_pos hn]
      rw [renderJVal, hi]
      obtain ⟨c, r, hcr, hc, _⟩ := natToChars_cons (-n).toNat
      have hkey : parseDigits (r ++ rest) (c.toNat - 48) = ((-n).toNat, rest) := by
        have h0 : parseDigits (natToChars (-n).toNat ++ rest) 0 = ((-n).toNat, rest) :=
          parseDigits_natToChars_zero h (-n).toNat
        rw [hcr] at h0
        rw [List.cons_append, parseDigits, if_pos hc] at h0
        simpa using h0
      rw [List.cons_append, hcr, List.cons_append]
      simp only [parseJVal]
      rw [if_neg (by decide : ¬(('-' : Char) = qchar)),
        if_neg (by decide : ¬(('-' : Char) = 'n'))]
      simp only [if_true, if_pos hc, hkey]
      have harith : -(((-n).toNat : Nat) : Int) = n := by omega
      rw [harith]

/-! ### Members and whole objects round trip -/

theorem skipWs_renderJVal (v : JVal) (tail : List Char) :
    skipWs (renderJVal v ++ tail) = renderJVal v ++ tail := by
  cases v with
  | null =>
    simp only [renderJVal, List.cons_append]
    exact skipWs_nonws (by decide) _
  | str s =>
    simp only [renderJVal, escString, List.cons_append]
    exact skipWs_nonws (by decide) _
  | int n =>
    rcases le_or_lt 0 n with hn | hn
    · have hi : intToChars n = natToChars n.toNat := by
        rw [intToChars, if_neg (by omega)]
      simp only [renderJVal, hi]
      obtain ⟨c, r, hcr, hc, _⟩ := natToChars_cons n.toNat
      rw [hcr, List.cons_append]
      exact skipWs_nonws (isWsChar_of_isDig hc) _
    · have hi : intToChars n = '-' :: natToChars (-n).toNat := by
        rw [intToChars, if_pos hn]
      simp only [renderJVal, hi, List.cons_append]
      exact skipWs_nonws (by decide) _

theorem parseMember_render (k : String) (v : JVal) (tail : List Char)
    (htail : noDigitHead tail = true) :
    parseMember ('\n' :: (spaces4 ++ (renderMember k v ++ tail))) =
      some ((k, v), tail) := by
  have hshape : renderMember k v ++ tail =
      qchar :: (escList k.data ++ (qchar :: (':' :: ' ' :: (renderJVal v ++ tail)))) := by
    simp [renderMember, escString, List.cons_append, List.append_assoc]
  have hskip : skipWs ('\n' :: (spaces4 ++ (renderMember k v ++ tail))) =
      qchar :: (escList k.data ++ (qchar :: (':' :: ' ' :: (renderJVal v ++ tail)))) := by
    rw [show ('\n' :: (spaces4 ++ (renderMember k v ++ tail))) =
      '\n' :: ' ' :: ' ' :: ' ' :: ' ' :: (renderMember k v ++ tail) from rfl]
    rw [skipWs_ws (by decide), skipWs_ws (by decide), skipWs_ws (by decide),
      skipWs_ws (by decide), skipWs_ws (by decide), hshape]
    exact skipWs_nonws (by decide) _
  have hlen : k.data.length ≤
      (escList k.data ++ (qchar :: (':' :: ' ' :: (renderJVal v ++ tail)))).length := by
    rw [List.length_append, List.length_cons]
    have := length_le_escList k.data
    omega
  rw [parseMember, hskip]
  simp only [if_pos (rfl : qchar = qchar), if_true]
  rw [parse_escList k.data _ hlen _]
  simp only [skipWs_nonws (by decide : isWsChar ':' = false),
    if_pos (rfl : (':' : Char) = ':'), if_true,
    skipWs_ws (by decide : isWsChar ' ' = true), skipWs_renderJVal,
    parseJVal_render v htail, string_mk_data]

/-- Every member line is at least one character long. -/
theorem length_le_renderMembers (ms : List (String × JVal)) :
    ms.length ≤ (renderMembers ms).length := by
  induction ms with
  | nil => simp [renderMembers]
  | cons m tl ih =>
    obtain ⟨k, v⟩ := m
    cases tl with
    | nil => simp [renderMembers, spaces4]
    | cons m2 tl2 =>
      obtain ⟨k2, v2⟩ := m2
      have hr : renderMembers ((k, v) :: (k2, v2) :: tl2) =
          spaces4 ++ renderMember k v ++ (',' :: '\n' :: renderMembers ((k2, v2) :: tl2)) := rfl
      rw [hr]
      simp only [List.length_append, List.length_cons, spaces4] at *
      omega

theorem parseMembers_render (ms : List (String × JVal)) :
    ∀ (fuel : Nat), ms.length ≤ fuel → ms ≠ [] → ∀ rest : List Char,
      parseMembers fuel ('\n' :: (renderMembers ms ++ ('\n' :: rbrace :: rest))) =
        some (ms, rest) := by
  induction ms with
  | nil => intro _ _ hne; exact absurd rfl hne
  | cons m tl ih =>
    intro fuel hfuel _ rest
    obtain ⟨f2, rfl⟩ : ∃ f2, fuel = f2 + 1 := ⟨fuel - 1, by simp at hfuel; omega⟩
    obtain ⟨k, v⟩ := m
    cases tl with
    | nil =>
      have hshape : '\n' :: (renderMembers [(k, v)] ++ ('\n' :: rbrace :: rest)) =
          '\n' :: (spaces4 ++ (renderMember k v ++ ('\n' :: rbrace :: rest))) := by
        simp [renderMembers, List.append_assoc]
      rw [hshape, parseMembers,
        parseMember_render k v ('\n' :: rbrace :: rest) (by rfl)]
      simp only [skipWs_ws (by decide : isWsChar '\n' = true),
        skipWs_nonws (by decide : isWsChar rbrace = false),
        if_neg (by decide : ¬(rbrace = ',')), if_pos (rfl : rbrace = rbrace), if_true]
    | cons m2 tl2 =>
      obtain ⟨k2, v2⟩ := m2
      have hshape : '\n' :: (renderMembers ((k, v) :: (k2, v2) :: tl2) ++ ('\n' :: rbrace :: rest)) =
          '\n' :: (spaces4 ++ (renderMember k v ++
            (',' :: '\n' :: (renderMembers ((k2, v2) :: tl2) ++ ('\n' :: rbrace :: rest))))) := by
        have hr : renderMembers ((k, v) :: (k2, v2) :: tl2) =
            spaces4 ++ renderMember k v ++ (',' :: '\n' :: renderMembers ((k2, v2) :: tl2)) := rfl
        rw [hr]
        simp [List.append_assoc]
      rw [hshape, parseMembers,
        parseMember_render k v
          (',' :: '\n' :: (renderMembers ((k2, v2) :: tl2) ++ ('\n' :: rbrace :: rest)))
          (by rfl)]
      simp only [skipWs_nonws (by decide : isWsChar ',' = false),
        if_pos (rfl : (',' : Char) = ','), if_true,
        ih f2 (by simp at hfuel ⊢; omega) (by simp) rest]
      rfl

/-- The whole document written by `json.dumps(d, indent=4)` for a non-empty
flat dictionary parses back to exactly that dictionary. -/
theorem loads_renderObj (ms : List (String × JVal)) (hne : ms ≠ []) :
    loads (renderObj ms) = some ms := by
  obtain ⟨m, tl, rfl⟩ : ∃ m tl, ms = m :: tl := by
    cases ms with
    | nil => exact absurd rfl hne
    | cons m tl => exact ⟨m, tl, rfl⟩
  obtain ⟨k, v⟩ := m
  rw [renderObj, loads]
  rw [skipWs_nonws (by decide : isWsChar lbrace = false)]
  simp only [if_pos (rfl : lbrace = lbrace), if_true]
  have hmem : ∃ X, renderMembers ((k, v) :: tl) = spaces4 ++ (renderMember k v ++ X) := by
    cases tl with
    | nil => exact ⟨[], by simp [renderMembers]⟩
    | cons m2 tl2 => exact ⟨',' :: '\n' :: renderMembers (m2 :: tl2), by simp [renderMembers]⟩
  obtain ⟨X, hX⟩ := hmem
  have hskip : skipWs ('\n' :: (renderMembers ((k, v) :: tl) ++ ('\n' :: [rbrace]))) =
      qchar :: ((escList k.data ++ [qchar]) ++ ((':' :: ' ' :: renderJVal v) ++ (X ++ ('\n' :: [rbrace])))) := by
    rw [hX]
    rw [show '\n' :: ((spaces4 ++ (renderMember k v ++ X)) ++ ('\n' :: [rbrace])) =
      '\n' :: ' ' :: ' ' :: ' ' :: ' ' :: ((renderMember k v ++ X) ++ ('\n' :: [rbrace])) from by
        simp [spaces4, List.append_assoc]]
    rw [skipWs_ws (by decide), skipWs_ws (by decide), skipWs_ws (by decide),
      skipWs_ws (by decide), skipWs_ws (by decide)]
    rw [show (renderMember k v ++ X) ++ ('\n' :: [rbrace]) =
      qchar :: ((escList k.data ++ [qchar]) ++ ((':' :: ' ' :: renderJVal v) ++ (X ++ ('\n' :: [rbrace])))) from by
        simp [renderMember, escString, List.cons_append, List.append_assoc]]
    exact skipWs_nonws (by decide) _
  simp only [hskip, if_neg (by decide : ¬(qchar = rbrace))]
  rw [parseMembers_render ((k, v) :: tl) _
    (by
      simp only [List.length_cons, List.length_append]
      have := length_le_renderMembers ((k, v) :: tl)
      simp only [List.length_cons] at this
      omega)
    (by simp) []]
  simp [skipWs]


/-! ### Flow step lemmas -/

theorem indexedPrints_no_save (ps : List Part) (i : Nat) :
    ∀ e ∈ indexedPrints ps i, isSave e = false := by
  induction ps generalizing i with
  | nil => intro e he; cases he
  | cons p rest ih =>
    intro e he
    rw [indexedPrints] at he
    rcases List.mem_cons.mp he with he | he
    · subst he; rfl
    · exact ih (i + 1) e he

theorem savesOf_indexedPrints (ps : List Part) (i : Nat) :
    savesOf (indexedPrints ps i) = [] := by
  rw [savesOf, List.filter_eq_nil_iff]
  intro a ha
  simp [indexedPrints_no_save ps i a ha]

theorem selLoop_done {parts : List Part} {sel : Int} {lines : List String}
    (h : ¬(sel < 1 ∨ sel > (parts.length : Int))) :
    selLoop parts sel lines = ([], .val sel, lines) := by
  rw [selLoop.eq_def, if_neg h]

theorem selLoop_q {parts : List Part} {sel : Int}
    (h : sel < 1 ∨ sel > (parts.length : Int)) (rest : List String) :
    selLoop parts sel ("q" :: rest) = ([Ev.prompt selPrompt], .quit, rest) := by
  rw [selLoop.eq_def, if_pos h]
  simp

theorem selLoop_num {parts : List Part} {sel : Int}
    (h : sel < 1 ∨ sel > (parts.length : Int)) {w : String} {n : Int}
    (hq : ¬(w = "q")) (hp : pyInt w = some n) (rest : List String) :
    selLoop parts sel (w :: rest) =
      (Ev.prompt selPrompt :: (selLoop parts n rest).1,
       (selLoop parts n rest).2.1, (selLoop parts n rest).2.2) := by
  rw [selLoop.eq_def, if_pos h]
  simp [hq, hp]

theorem selLoop_badnum {parts : List Part} {sel : Int}
    (h : sel < 1 ∨ sel > (parts.length : Int)) {w : String}
    (hq : ¬(w = "q")) (hp : pyInt w = none) (rest : List String) :
    selLoop parts sel (w :: rest) =
      (Ev.prompt selPrompt :: Ev.print (selErrMsg w) :: (selLoop parts sel rest).1,
       (selLoop parts sel rest).2.1, (selLoop parts sel rest).2.2) := by
  rw [selLoop.eq_def, if_pos h]
  simp [hq, hp]

theorem selectedPhase_events (part : Part) (lines : List String) :
    ∃ t, (selectedPhase part lines).1 = Ev.print (selectedMsg part) :: t := by
  rcases hc : (countLoop lines 0).2.1 with m | _ | n <;>
    simp [selectedPhase, hc]

/-! ### Fuel adequacy: each outer iteration consumes at least one line, so
`inventory` never runs out of fuel. -/

theorem countLoop_rem_length (lines : List String) :
    ∀ c : Int, (countLoop lines c).2.2.length ≤ lines.length := by
  induction lines with
  | nil =>
    intro c
    rw [countLoop.eq_def]
    split_ifs <;> simp
  | cons l rest ih =>
    intro c
    rw [countLoop.eq_def]
    split_ifs with h
    · by_cases hq : l = "q"
      · simp [hq]
      · cases hp : pyInt l with
        | some n =>
          simp only [hq, hp, if_false]
          simp
          exact Nat.le_succ_of_le (ih n)
        | none =>
          simp [hq, hp]
    · simp

theorem selLoop_rem_length (parts : List Part) (lines : List String) :
    ∀ sel : Int, (selLoop parts sel lines).2.2.length ≤ lines.length := by
  induction lines with
  | nil =>
    intro sel
    rw [selLoop.eq_def]
    split_ifs <;> simp
  | cons l rest ih =>
    intro sel
    rw [selLoop.eq_def]
    split_ifs with h
    · by_cases hq : l = "q"
      · simp [hq]
      · cases hp : pyInt l with
        | some n =>
          simp only [hq, hp, if_false]
          simp
          exact Nat.le_succ_of_le (ih n)
        | none =>
          simp only [hq, hp, if_false]
          simp
          exact Nat.le_succ_of_le (ih sel)
    · simp

theorem selectedPhase_ok_length {part : Part} {lines rem : List String}
    (h : (selectedPhase part lines).2 = .ok rem) : rem.length ≤ lines.length := by
  rcases hc : (countLoop lines 0).2.1 with m | _ | n <;>
    simp [selectedPhase, hc] at h <;>
    rw [← h] <;> exact countLoop_rem_length lines 0

/-- With fuel `lines.length + 1` — what `inventory` supplies — the loop
never ends by fuel exhaustion: every outcome is a real one. -/
theorem invLoop_no_fuelOut (search : String → List Part) :
    ∀ (fuel : Nat) (lines : List String), lines.length < fuel →
      (invLoop search fuel lines).2 ≠ .fuelOut := by
  intro fuel
  induction fuel with
  | zero => intro lines h; omega
  | succ f ih =>
    intro lines h
    cases lines with
    | nil => simp [invLoop]
    | cons q0 rest =>
      by_cases hq : q0 = "q"
      · simp [invLoop, hq]
      · rcases hs : search q0 with _ | ⟨p1, ptl⟩
        · simp only [invLoop, if_neg hq, hs]
          exact ih rest (by simp at h; omega)
        · cases ptl with
          | nil =>
            rcases hsp : (selectedPhase p1 rest).2 with m | rem
            · simp [invLoop, hq, hs, hsp]
            · simp only [invLoop, if_neg hq, hs, hsp]
              exact ih rem (by
                have := selectedPhase_ok_length hsp
                simp at h
                omega)
          | cons p2 ptl2 =>
            rcases hql : (selLoop (p1 :: p2 :: ptl2) 0 rest).2.1 with m | _ | sval
            · simp [invLoop, hq, hs, hql]
            · simp only [invLoop, if_neg hq, hs, hql]
              exact ih _ (by
                have := selLoop_rem_length (p1 :: p2 :: ptl2) rest 0
                simp at h
                omega)
            · rcases hsp : (selectedPhase ((p1 :: p2 :: ptl2).getD (sval - 1).toNat dummyPart)
                  (selLoop (p1 :: p2 :: ptl2) 0 rest).2.2).2 with m | rem
              · simp only [invLoop, if_neg hq, hs, hql, hsp]
                simp
              · simp only [invLoop, if_neg hq, hs, hql, hsp]
                exact ih rem (by
                  have h1 := selLoop_rem_length (p1 :: p2 :: ptl2) rest 0
                  have h2 := selectedPhase_ok_length hsp
                  simp at h
                  omega)

theorem inventory_no_fuelOut (search : String → List Part) (lines : List String) :
    (inventory search lines).2 ≠ .fuelOut :=
  invLoop_no_fuelOut search (lines.length + 1) lines (by omega)


/-! ## Claim theorems -/

/-- C3 counterexample: the part number consisting of the single letter
e-acute (U+00E9) is alphanumeric for Python, so `sanitize_filename` keeps
it and the derived filename contains a character outside
`[A-Za-z0-9-_.() ]`, contradicting the claim as stated. -/
theorem c3_counterexample :
    Part.default_filename (Part.init "é") = ".database/é.json" ∧
    ¬(∀ c ∈ (sanitize_filename "é").data, allowedSpecChar c = true) := by decide

/-- C3 (amended): for every part, `default_filename` is
`.database/<sanitized>.json`; the sanitized portion preserves the relative
order of the kept characters (it is a sublist of the input), it is
non-empty whenever the input contains a character of `[A-Za-z0-9-_.() ]`,
and — for inputs made of ASCII characters — it contains only characters of
`[A-Za-z0-9-_.() ]`. -/
theorem c3_filename_sanitization (p : Part) :
    Part.default_filename p = ".database/" ++ sanitize_filename p.partNum ++ ".json"
    ∧ List.Sublist (sanitize_filename p.partNum).data p.partNum.data
    ∧ ((∀ c ∈ p.partNum.data, c.toNat < 128) →
        ∀ c ∈ (sanitize_filename p.partNum).data, allowedSpecChar c = true)
    ∧ ((∃ c ∈ p.partNum.data, allowedSpecChar c = true) →
        sanitize_filename p.partNum ≠ "") := by
  refine ⟨rfl, List.filter_sublist _, ?_, ?_⟩
  · intro hascii c hc
    rw [show (sanitize_filename p.partNum).data = p.partNum.data.filter keepChar from rfl]
      at hc
    rcases List.mem_filter.mp hc with ⟨hmem, hkeep⟩
    have hlt := hascii c hmem
    rcases Bool.or_eq_true_iff.mp hkeep with halnum | hpunct
    · have hb : (48 ≤ c.toNat ∧ c.toNat ≤ 57) ∨ (65 ≤ c.toNat ∧ c.toNat ≤ 90) ∨
          (97 ≤ c.toNat ∧ c.toNat ≤ 122) := by
        simp only [pyIsAlnum, Bool.or_eq_true, Bool.and_eq_true,
          decide_eq_true_eq] at halnum
        omega
      simp only [allowedSpecChar, Bool.or_eq_true, Bool.and_eq_true, decide_eq_true_eq]
      rcases hb with h | h | h
      · exact Or.inl (Or.inl (Or.inl h))
      · exact Or.inl (Or.inl (Or.inr h))
      · exact Or.inl (Or.inr h)
    · simp only [allowedSpecChar, Bool.or_eq_true]
      exact Or.inr hpunct
  · rintro ⟨c, hmem, hallowed⟩ hempty
    have hkeep : keepChar c = true := by
      rcases Bool.or_eq_true_iff.mp hallowed with hranges | hpunct
      · have hb : (48 ≤ c.toNat ∧ c.toNat ≤ 57) ∨ (65 ≤ c.toNat ∧ c.toNat ≤ 90) ∨
            (97 ≤ c.toNat ∧ c.toNat ≤ 122) := by
          simp only [Bool.or_eq_true, Bool.and_eq_true, decide_eq_true_eq] at hranges
          omega
        have hal : pyIsAlnum c = true := by
          simp only [pyIsAlnum, Bool.or_eq_true, Bool.and_eq_true, decide_eq_true_eq]
          omega
        simp [keepChar, hal]
      · simp only [keepChar, Bool.or_eq_true]
        exact Or.inr hpunct
    have hdata : (sanitize_filename p.partNum).data = [] := by
      rw [hempty]
    rw [show (sanitize_filename p.partNum).data = p.partNum.data.filter keepChar from rfl]
      at hdata
    have : c ∈ p.partNum.data.filter keepChar := List.mem_filter.mpr ⟨hmem, hkeep⟩
    rw [hdata] at this
    cases this

/-- C3 witness: a concrete ASCII part number with characters to strip. -/
theorem c3_filename_sanitization_witness :
    (∀ c ∈ (sanitize_filename "AB#9/x y").data, allowedSpecChar c = true) ∧
    sanitize_filename "AB#9/x y" ≠ "" :=
  ⟨(c3_filename_sanitization (Part.init "AB#9/x y")).2.2.1 (by decide),
   (c3_filename_sanitization (Part.init "AB#9/x y")).2.2.2 ⟨'A', by decide, by decide⟩⟩

/-- C5: the parser fills each optional field only when the source field is
truthy; a falsy (null or empty-string) source leaves the default in place.
In particular a falsy `ImagePath` yields `imageUrl = none` — the default —
whatever `DataSheetUrl` holds, because line 108 reads `part.datasheetUrl`
before line 109 assigns it. -/
theorem c5_parse_truthy_fields (j : Entry) :
    ((truthy j.Category = false → (parseEntry j).category = "uncategorized") ∧
     (∀ s, j.Category = some s → s ≠ "" → (parseEntry j).category = s)) ∧
    ((truthy j.Manufacturer = false → (parseEntry j).manufacturer = "unknown") ∧
     (∀ s, j.Manufacturer = some s → s ≠ "" → (parseEntry j).manufacturer = s)) ∧
    ((truthy j.Description = false → (parseEntry j).description = none) ∧
     (∀ s, j.Description = some s → s ≠ "" → (parseEntry j).description = some s)) ∧
    ((truthy j.ImagePath = false → (parseEntry j).imageUrl = none) ∧
     (∀ s, j.ImagePath = some s → s ≠ "" → (parseEntry j).imageUrl = some s)) ∧
    ((truthy j.DataSheetUrl = false → (parseEntry j).datasheetUrl = none) ∧
     (∀ s, j.DataSheetUrl = some s → s ≠ "" → (parseEntry j).datasheetUrl = some s)) ∧
    ((truthy j.ProductDetailUrl = false → (parseEntry j).productUrl = none) ∧
     (∀ s, j.ProductDetailUrl = some s → s ≠ "" → (parseEntry j).productUrl = some s)) := by
  refine ⟨⟨?_, ?_⟩, ⟨?_, ?_⟩, ⟨?_, ?_⟩, ⟨?_, ?_⟩, ⟨?_, ?_⟩, ⟨?_, ?_⟩⟩
  · intro h
    show pyOrStr j.Category "uncategorized" = "uncategorized"
    cases hj : j.Category with
    | none => rfl
    | some s => rw [hj] at h; simp [truthy] at h; simp [pyOrStr, h]
  · intro s hj hs
    show pyOrStr j.Category "uncategorized" = s
    rw [hj]; simp [pyOrStr, hs]
  · intro h
    show pyOrStr j.Manufacturer "unknown" = "unknown"
    cases hj : j.Manufacturer with
    | none => rfl
    | some s => rw [hj] at h; simp [truthy] at h; simp [pyOrStr, h]
  · intro s hj hs
    show pyOrStr j.Manufacturer "unknown" = s
    rw [hj]; simp [pyOrStr, hs]
  · intro h
    show pyOrOpt j.Description none = none
    cases hj : j.Description with
    | none => rfl
    | some s => rw [hj] at h; simp [truthy] at h; simp [pyOrOpt, h]
  · intro s hj hs
    show pyOrOpt j.Description none = some s
    rw [hj]; simp [pyOrOpt, hs]
  · intro h
    show pyOrOpt j.ImagePath none = none
    cases hj : j.ImagePath with
    | none => rfl
    | some s => rw [hj] at h; simp [truthy] at h; simp [pyOrOpt, h]
  · intro s hj hs
    show pyOrOpt j.ImagePath none = some s
    rw [hj]; simp [pyOrOpt, hs]
  · intro h
    show pyOrOpt j.DataSheetUrl none = none
    cases hj : j.DataSheetUrl with
    | none => rfl
    | some s => rw [hj] at h; simp [truthy] at h; simp [pyOrOpt, h]
  · intro s hj hs
    show pyOrOpt j.DataSheetUrl none = some s
    rw [hj]; simp [pyOrOpt, hs]
  · intro h
    show pyOrOpt j.ProductDetailUrl none = none
    cases hj : j.ProductDetailUrl with
    | none => rfl
    | some s => rw [hj] at h; simp [truthy] at h; simp [pyOrOpt, h]
  · intro s hj hs
    show pyOrOpt j.ProductDetailUrl none = some s
    rw [hj]; simp [pyOrOpt, hs]

/-- C5 witness: a concrete entry with a null `ImagePath`, an empty (falsy)
`ProductDetailUrl` and a truthy `DataSheetUrl`. -/
theorem c5_parse_truthy_fields_witness :
    (parseEntry exEntry).imageUrl = none ∧
    (parseEntry exEntry).productUrl = none ∧
    (parseEntry exEntry).datasheetUrl = some "http://ds.example/a.pdf" ∧
    (parseEntry exEntry).manufacturer = "unknown" :=
  ⟨(c5_parse_truthy_fields exEntry).2.2.2.1.1 (by decide),
   (c5_parse_truthy_fields exEntry).2.2.2.2.2.1 (by decide),
   (c5_parse_truthy_fields exEntry).2.2.2.2.1.2 "http://ds.example/a.pdf" rfl (by decide),
   (c5_parse_truthy_fields exEntry).2.1.1 (by decide)⟩

/-- C7: the Mouser search request — method, URL, headers and encoded
body — is the same whether the exact flag is true or false; the flag is
accepted but never read (lines 66-79). -/
theorem c7_request_independent_of_exact (apiKey query : String) (e1 e2 : Bool) :
    MouserPartSearch.request apiKey query e1 =
      MouserPartSearch.request apiKey query e2 := rfl

/-- C9: `parse` produces one `Part` per entry of `SearchResults.Parts`, in
source order, and each part number equals the entry field
`ManufacturerPartNumber`. -/
theorem c9_parse_one_per_entry (obj : RawResponse) :
    (MouserPartParser.parse obj).length = obj.SearchResults.Parts.length ∧
    ∀ i : Nat, ((MouserPartParser.parse obj)[i]?).map Part.partNum =
      ((obj.SearchResults.Parts)[i]?).map Entry.ManufacturerPartNumber := by
  constructor
  · simp [MouserPartParser.parse]
  · intro i
    rw [MouserPartParser.parse, List.getElem?_map]
    cases h : obj.SearchResults.Parts[i]? with
    | none => rfl
    | some j => rfl

/-- C10: every parsed part keeps a non-empty category and a non-empty
manufacturer: a truthy source string is non-empty, and the defaults
`uncategorized` and `unknown` are non-empty. -/
theorem c10_parse_nonempty_defaults (obj : RawResponse) (p : Part)
    (hp : p ∈ MouserPartParser.parse obj) :
    p.category ≠ "" ∧ p.manufacturer ≠ "" := by
  rw [MouserPartParser.parse] at hp
  rcases List.mem_map.mp hp with ⟨j, _, rfl⟩
  constructor
  · show pyOrStr j.Category "uncategorized" ≠ ""
    cases j.Category with
    | none => decide
    | some s =>
      rw [pyOrStr]
      split_ifs with h
      · decide
      · exact h
  · show pyOrStr j.Manufacturer "unknown" ≠ ""
    cases j.Manufacturer with
    | none => decide
    | some s =>
      rw [pyOrStr]
      split_ifs with h
      · decide
      · exact h

/-- C10 witness: the part parsed from the concrete entry. -/
theorem c10_parse_nonempty_defaults_witness :
    (parseEntry exEntry).category ≠ "" ∧ (parseEntry exEntry).manufacturer ≠ "" :=
  c10_parse_nonempty_defaults exResponse (parseEntry exEntry) (by decide)


/-- C4: the lookup flow with insert requested saves exactly the single
returned part at its default path; with zero results it prints the
nothing-to-insert message and writes nothing; with more than one result it
prints the refusal message and writes nothing. -/
theorem c4_lookup_insert (parts : List Part) (p : Part) :
    (parts = [p] →
      lookup parts true =
        [Ev.print (p.to_string (some 1)), Ev.save p p.default_filename] ∧
      savesOf (lookup parts true) = [Ev.save p p.default_filename]) ∧
    (parts = [] →
      lookup parts true = [Ev.print nothingMsg] ∧
      savesOf (lookup parts true) = []) ∧
    (2 ≤ parts.length →
      Ev.print refuseMsg ∈ lookup parts true ∧
      savesOf (lookup parts true) = []) := by
  refine ⟨?_, ?_, ?_⟩
  · rintro rfl
    constructor
    · rfl
    · rfl
  · rintro rfl
    constructor
    · rfl
    · rfl
  · intro hlen
    have hform : lookup parts true = indexedPrints parts 1 ++ [Ev.print refuseMsg] := by
      rw [lookup, if_pos rfl, if_pos (by omega)]
    constructor
    · rw [hform]
      exact List.mem_append_right _ (List.mem_singleton.mpr rfl)
    · rw [hform, savesOf, List.filter_append]
      rw [show List.filter isSave (indexedPrints parts 1) = savesOf (indexedPrints parts 1) from rfl,
        savesOf_indexedPrints]
      rfl

/-- C4 witness: a singleton result list saves exactly once at the default
path. -/
theorem c4_lookup_insert_witness :
    lookup [exPart] true =
      [Ev.print (exPart.to_string (some 1)), Ev.save exPart exPart.default_filename] ∧
    savesOf (lookup [exPart] true) = [Ev.save exPart exPart.default_filename] :=
  (c4_lookup_insert [exPart] exPart).1 rfl

/-- C6: saving a part writes `json.dumps(self.__dict__, indent=4)` at the
default path, and parsing that text back as JSON yields exactly the eight
fields of the record, in declaration order, with the part field values —
`null` for unset optional fields. -/
theorem c6_save_roundtrip (p : Part) (fs : FS) :
    Part.save p none fs p.default_filename = some p.saveChars ∧
    loads p.saveChars = some
      [("partNum", .str p.partNum),
       ("category", .str p.category),
       ("manufacturer", .str p.manufacturer),
       ("description", jopt p.description),
       ("imageUrl", jopt p.imageUrl),
       ("datasheetUrl", jopt p.datasheetUrl),
       ("productUrl", jopt p.productUrl),
       ("count", jcount p.count)] := by
  constructor
  · rw [Part.save]
    simp
  · exact loads_renderObj (partDict p) (by simp [partDict])


/-- C1 evaluation at the failing input: with a single-result query, typing
`q` at the count prompt does NOT abort — the count-loop `break` leaves
`count = None`, and lines 180-183 still run: the part is saved with a null
count and the written-message is printed before the session returns to the
part-id prompt.  The claim (quit aborts with no save) contradicts this. -/
theorem c1_count_quit_still_saves :
    inventory oneOracle ["X", "q", "q"] =
      ([Ev.prompt partPrompt, Ev.print (selectedMsg exPart), Ev.prompt countPrompt,
        Ev.save { exPart with count := none } ".database/EX1.json",
        Ev.print (writtenMsg { exPart with count := none }), Ev.prompt partPrompt],
       Outcome.exited) ∧
    savesOf (inventory oneOracle ["X", "q", "q"]).1 =
      [Ev.save { exPart with count := none } ".database/EX1.json"] := by decide

/-- C2 evaluation: `0` and `-2` at the count prompt re-prompt without
saving, and the positive count `5` saves exactly once — as the claim says.
But non-numeric input (`abc`) does not re-prompt: the bare `except:`
handler evaluates `format(e)` with `e` unbound, raising `NameError` and
terminating the whole session with no save. -/
theorem c2_count_validation :
    (inventory oneOracle ["X", "0", "-2", "5", "q"] =
      ([Ev.prompt partPrompt, Ev.print (selectedMsg exPart),
        Ev.prompt countPrompt, Ev.prompt countPrompt, Ev.prompt countPrompt,
        Ev.save { exPart with count := some 5 } ".database/EX1.json",
        Ev.print (writtenMsg { exPart with count := some 5 }), Ev.prompt partPrompt],
       Outcome.exited)) ∧
    (inventory oneOracle ["X", "abc"] =
      ([Ev.prompt partPrompt, Ev.print (selectedMsg exPart), Ev.prompt countPrompt],
       Outcome.crashed "NameError")) := by decide

/-- C8 counterexample: in the Disambiguate state over two results,
entering `0` is NOT reported — the trace shows the selection prompt twice
in a row with no message in between (the claim says out-of-range input is
reported). -/
theorem c8_zero_not_reported :
    (inventory twoOracle ["X", "0", "q", "q"]).1 =
      [Ev.prompt partPrompt, Ev.print foundMultipleMsg,
       Ev.print (exPart.to_string (some 1)), Ev.print (exPart2.to_string (some 2)),
       Ev.prompt selPrompt, Ev.prompt selPrompt, Ev.prompt partPrompt] ∧
    Ev.print (selErrMsg "0") ∉ (inventory twoOracle ["X", "0", "q", "q"]).1 := by decide

/-- C8 (amended): in the Disambiguate state over more than one result,
quitting returns to the Prompt state with no additional save; an integer
inside `[1, N]` ends the selection loop with that 1-based index and the
session enters the Selected state with the part at that index; `0` or an
out-of-range integer silently repeats the state (no message is printed);
non-numeric input is reported with a selection-error message and the state
repeats. -/
theorem c8_disambiguate_behavior (p1 p2 : Part) (ps : List Part) (sel : Int)
    (hsel : sel < 1 ∨ sel > ((p1 :: p2 :: ps).length : Int))
    (search : String → List Part) (q0 : String) (fuel : Nat)
    (hq : search q0 = p1 :: p2 :: ps) (hq0 : ¬(q0 = "q"))
    (s : String) (i : Int) (rest : List String) (lines : List String) :
    ((invLoop search (fuel + 1) (q0 :: "q" :: lines)).1 =
        Ev.prompt partPrompt :: Ev.print foundMultipleMsg ::
          (indexedPrints (p1 :: p2 :: ps) 1 ++
            (Ev.prompt selPrompt :: (invLoop search fuel lines).1)) ∧
      (invLoop search (fuel + 1) (q0 :: "q" :: lines)).2 =
        (invLoop search fuel lines).2 ∧
      savesOf (invLoop search (fuel + 1) (q0 :: "q" :: lines)).1 =
        savesOf (invLoop search fuel lines).1) ∧
    (pyInt s = some i → ¬(s = "q") → 1 ≤ i → i ≤ ((p1 :: p2 :: ps).length : Int) →
      selLoop (p1 :: p2 :: ps) sel (s :: rest) = ([Ev.prompt selPrompt], .val i, rest)) ∧
    (pyInt s = some i → ¬(s = "q") → 1 ≤ i → i ≤ ((p1 :: p2 :: ps).length : Int) →
      ∃ t, (invLoop search (fuel + 1) (q0 :: s :: rest)).1 =
        Ev.prompt partPrompt :: Ev.print foundMultipleMsg ::
          (indexedPrints (p1 :: p2 :: ps) 1 ++ (Ev.prompt selPrompt ::
            Ev.print (selectedMsg ((p1 :: p2 :: ps).getD (i - 1).toNat dummyPart)) :: t))) ∧
    (pyInt s = some i → ¬(s = "q") → (i < 1 ∨ i > ((p1 :: p2 :: ps).length : Int)) →
      selLoop (p1 :: p2 :: ps) sel (s :: rest) =
        (Ev.prompt selPrompt :: (selLoop (p1 :: p2 :: ps) i rest).1,
         (selLoop (p1 :: p2 :: ps) i rest).2.1,
         (selLoop (p1 :: p2 :: ps) i rest).2.2)) ∧
    (pyInt s = none → ¬(s = "q") →
      selLoop (p1 :: p2 :: ps) sel (s :: rest) =
        (Ev.prompt selPrompt :: Ev.print (selErrMsg s) ::
          (selLoop (p1 :: p2 :: ps) sel rest).1,
         (selLoop (p1 :: p2 :: ps) sel rest).2.1,
         (selLoop (p1 :: p2 :: ps) sel rest).2.2)) := by
  refine ⟨?_, ?_, ?_, ?_, ?_⟩
  · have hloop := @selLoop_q (p1 :: p2 :: ps) 0 (Or.inl (by omega)) lines
    have hrun : invLoop search (fuel + 1) (q0 :: "q" :: lines) =
        (Ev.prompt partPrompt :: Ev.print foundMultipleMsg ::
          (indexedPrints (p1 :: p2 :: ps) 1 ++
            (Ev.prompt selPrompt :: (invLoop search fuel lines).1)),
         (invLoop search fuel lines).2) := by
      simp only [invLoop, if_neg hq0, hq, hloop]
      simp [List.append_assoc]
    refine ⟨by rw [hrun], by rw [hrun], ?_⟩
    rw [hrun]
    show List.filter isSave _ = _
    simp only [List.filter_cons, List.filter_append]
    rw [show isSave (Ev.prompt partPrompt) = false from rfl,
      show isSave (Ev.print foundMultipleMsg) = false from rfl,
      show isSave (Ev.prompt selPrompt) = false from rfl]
    simp only [Bool.false_eq_true, if_false]
    rw [show List.filter isSave (indexedPrints (p1 :: p2 :: ps) 1) = ([] : List Ev) from
      savesOf_indexedPrints (p1 :: p2 :: ps) 1]
    rfl
  · intro hp hqs h1 hN
    rw [selLoop_num hsel hqs hp rest,
      selLoop_done (show ¬(i < 1 ∨ i > ((p1 :: p2 :: ps).length : Int)) by omega)]
  · intro hp hqs h1 hN
    have hloop1 : selLoop (p1 :: p2 :: ps) 0 (s :: rest) =
        ([Ev.prompt selPrompt], .val i, rest) := by
      rw [selLoop_num (Or.inl (by omega)) hqs hp rest,
        selLoop_done (show ¬(i < 1 ∨ i > ((p1 :: p2 :: ps).length : Int)) by omega)]
    obtain ⟨t0, ht0⟩ :=
      selectedPhase_events ((p1 :: p2 :: ps).getD (i - 1).toNat dummyPart) rest
    rcases hsp : (selectedPhase ((p1 :: p2 :: ps).getD (i - 1).toNat dummyPart) rest).2
      with m | rem
    · refine ⟨t0, ?_⟩
      simp only [invLoop, if_neg hq0, hq, hloop1, hsp, ht0]
      simp [List.append_assoc]
    · refine ⟨t0 ++ (invLoop search fuel rem).1, ?_⟩
      simp only [invLoop, if_neg hq0, hq, hloop1, hsp, ht0]
      simp [List.append_assoc]
  · intro hp hqs hrange
    rw [selLoop_num hsel hqs hp rest]
  · intro hp hqs
    rw [selLoop_badnum hsel hqs hp rest]

/-- C8 witness: with two concrete results, entering the index 1 ends the
selection loop selecting the first part. -/
theorem c8_disambiguate_behavior_witness :
    selLoop [exPart, exPart2] 0 ["1"] = ([Ev.prompt selPrompt], .val 1, []) :=
  (c8_disambiguate_behavior exPart exPart2 [] 0 (Or.inl (by decide)) twoOracle "X" 1
    (by decide) (by decide) "1" 1 [] ["q"]).2.1 (by decide) (by decide)
    (by decide) (by decide)


end PartsDb
